import Mathlib

/-!
Verification of the streaming ingestion protocol and session state machine
of the NutriScan frontend.

The definitions below are a shallow embedding of
`src/frontend/src/lib/api.ts` (`uploadReportStreaming`) and
`src/frontend/src/components/Navbar.tsx` (`UploadPage`): strings are
modelled as `List Char`, the JSON values produced by `JSON.parse` as an
inductive `Json`, a thrown exception as an `Except`/flag, and the React
`useState` cells of `UploadPage` as a `Session` record.
-/

/- ------------------------------------------------------------------ -/
/- JSON values and a model of JSON.parse                              -/
/- ------------------------------------------------------------------ -/

/-- JSON values as produced by `JSON.parse`. -/
inductive Json where
  | null
  | bool (b : Bool)
  | num (n : Int)
  | str (s : String)
  | arr (elems : List Json)
  | obj (fields : List (String × Json))

/-- Whitespace accepted between JSON tokens (also used for `String.trim`). -/
def isWs (c : Char) : Bool :=
  c = ' ' || c = '\t' || c = '\n' || c = '\r'

/-- Drop leading whitespace. -/
def skipWs : List Char → List Char
  | [] => []
  | c :: cs => if isWs c then skipWs cs else c :: cs

/-- Does `l` start with `tag`?  Models JavaScript `String.startsWith`. -/
def startsWith : List Char → List Char → Bool
  | [], _ => true
  | _ :: _, [] => false
  | t :: ts, c :: cs => t = c && startsWith ts cs

/-- Consume the literal characters `lit` from the front of `cs`. -/
def parseLit (lit cs : List Char) : Option (List Char) :=
  if startsWith lit cs then some (cs.drop lit.length) else none

/-- Scan a JSON string body up to the closing quote.  String escapes are
not modelled (a backslash makes the model parse fail). -/
def strBody : List Char → List Char → Option (String × List Char)
  | acc, c :: r =>
    if c = '"' then some (String.mk acc.reverse, r)
    else if c = '\\' then none
    else strBody (c :: acc) r
  | _, [] => none

/-- Accumulate decimal digits. -/
def digitsAcc : Nat → List Char → Nat × List Char
  | acc, c :: r =>
    if c.isDigit then digitsAcc (acc * 10 + (c.toNat - '0'.toNat)) r
    else (acc, c :: r)
  | acc, [] => (acc, [])

/-- Parse a nonnegative JSON integer (leading zeros rejected). -/
def parseNumNat : List Char → Option (Nat × List Char)
  | c :: r =>
    if c.isDigit then
      match c, r with
      | '0', d :: _ => if d.isDigit then none else some (digitsAcc 0 r)
      | _, _ => some (digitsAcc (c.toNat - '0'.toNat) r)
    else none
  | [] => none

/-- Parse a JSON integer with optional sign.  Fractions and exponents are
not modelled (the model parse fails where JS would accept them). -/
def parseNum : List Char → Option (Int × List Char)
  | '-' :: r => (parseNumNat r).map (fun p => (-(p.1 : Int), p.2))
  | cs => (parseNumNat cs).map (fun p => ((p.1 : Int), p.2))

mutual

/-- Fueled recursive-descent model of `JSON.parse` for one value. -/
def parseV : Nat → List Char → Option (Json × List Char)
  | 0, _ => none
  | fuel + 1, cs =>
    match skipWs cs with
    | [] => none
    | 'n' :: r => (parseLit "ull".toList r).map (fun r2 => (Json.null, r2))
    | 't' :: r => (parseLit "rue".toList r).map (fun r2 => (Json.bool true, r2))
    | 'f' :: r => (parseLit "alse".toList r).map (fun r2 => (Json.bool false, r2))
    | '"' :: r => (strBody [] r).map (fun p => (Json.str p.1, p.2))
    | '\x5b' :: r =>
      match skipWs r with
      | '\x5d' :: r2 => some (Json.arr [], r2)
      | _ => (parseElems fuel r).map (fun p => (Json.arr p.1, p.2))
    | '\x7b' :: r =>
      match skipWs r with
      | '\x7d' :: r2 => some (Json.obj [], r2)
      | _ => (parseMembers fuel r).map (fun p => (Json.obj p.1, p.2))
    | c :: r =>
      if c = '-' || c.isDigit then (parseNum (c :: r)).map (fun p => (Json.num p.1, p.2))
      else none

/-- Array elements after `[`. -/
def parseElems : Nat → List Char → Option (List Json × List Char)
  | 0, _ => none
  | fuel + 1, cs =>
    match parseV fuel cs with
    | none => none
    | some (v, r) =>
      match skipWs r with
      | ',' :: r2 => (parseElems fuel r2).map (fun p => (v :: p.1, p.2))
      | '\x5d' :: r2 => some ([v], r2)
      | _ => none

/-- Object members after an opening brace. -/
def parseMembers : Nat → List Char → Option (List (String × Json) × List Char)
  | 0, _ => none
  | fuel + 1, cs =>
    match skipWs cs with
    | '"' :: r =>
      match strBody [] r with
      | none => none
      | some (k, r2) =>
        match skipWs r2 with
        | ':' :: r3 =>
          match parseV fuel r3 with
          | none => none
          | some (v, r4) =>
            match skipWs r4 with
            | ',' :: r5 => (parseMembers fuel r5).map (fun p => ((k, v) :: p.1, p.2))
            | '\x7d' :: r5 => some ([(k, v)], r5)
            | _ => none
        | _ => none
    | _ => none

end

/-- Model of `JSON.parse`: `none` models a thrown `SyntaxError`. -/
def jsonParse (s : String) : Option Json :=
  match parseV (2 * s.length + 2) s.data with
  | some (v, rest) => if skipWs rest = [] then some v else none
  | none => none

/- ------------------------------------------------------------------ -/
/- JavaScript value helpers used by the dispatcher                    -/
/- ------------------------------------------------------------------ -/

/-- Last-wins lookup of a key among object fields (as `JSON.parse` keeps
the last duplicate key). -/
def lookupField : List (String × Json) → String → Option Json
  | [], _ => none
  | kv :: rest, key =>
    match lookupField rest key with
    | some w => some w
    | none => if kv.1 = key then some kv.2 else none

/-- Model of the JavaScript property access `v.key` on a `JSON.parse`
result: `none` models a thrown `TypeError` (access on `null`),
`some none` models `undefined`, `some (some j)` the field value. -/
def jsGet : Json → String → Option (Option Json)
  | .null, _ => none
  | .obj fs, key => some (lookupField fs key)
  | _, _ => some none

/-- JavaScript truthiness of a `JSON.parse` result. -/
def Json.truthy : Json → Bool
  | .null => false
  | .bool b => b
  | .num n => n != 0
  | .str s => !s.isEmpty
  | .arr _ => true
  | .obj _ => true

/-- Model of `x || d` where `x` is a field access result (`undefined`
or a JSON value) and `d` a default. -/
def jsOr : Option Json → Json → Json
  | some v, d => if v.truthy then v else d
  | none, d => d

/- ------------------------------------------------------------------ -/
/- Frame buffer: splitting the accumulator on blank lines             -/
/- ------------------------------------------------------------------ -/

/-- Prepend a character to the first piece of a split result. -/
def consHead (c : Char) : List (List Char) → List (List Char)
  | [] => [[c]]
  | p :: ps => (c :: p) :: ps

/-- Model of `buffer.split("\n\n")`: greedy left-to-right split on two
consecutive newlines. -/
def splitNN : List Char → List (List Char)
  | [] => [[]]
  | [c] => [[c]]
  | c1 :: c2 :: rest =>
    if c1 = '\n' ∧ c2 = '\n' then [] :: splitNN rest
    else consHead c1 (splitNN (c2 :: rest))

/-- Model of `event.split("\n")`. -/
def splitNL : List Char → List (List Char)
  | [] => [[]]
  | c :: rest => if c = '\n' then [] :: splitNL rest else consHead c (splitNL rest)

/-- The last piece of a split result, which `uploadReportStreaming` keeps
as the new accumulator (`events.pop() || ""`). -/
def lastP : List (List Char) → List Char
  | [] => []
  | [p] => p
  | _ :: ps => lastP ps

/-- One `ingest` step of the frame buffer: append the chunk, split on the
frame separator, emit every piece but the last, retain the last piece. -/
def ingest (buffer chunk : List Char) : List (List Char) × List Char :=
  let events := splitNN (buffer ++ chunk)
  (events.dropLast, lastP events)

/-- Frames emitted by feeding the chunks in order through the frame
buffer; at end-of-stream the residual accumulator is discarded. -/
def runChunks (buffer : List Char) : List (List Char) → List (List Char)
  | [] => []
  | c :: cs =>
    let step := ingest buffer c
    step.1 ++ runChunks step.2 cs

/- ------------------------------------------------------------------ -/
/- Frame parser: event/data line scan                                 -/
/- ------------------------------------------------------------------ -/

/-- The label of an event-kind line. -/
def evTag : List Char := "event: ".toList

/-- The label of a data line. -/
def dataTag : List Char := "data: ".toList

/-- The line scan of `uploadReportStreaming`: for each line, an
`event: ` line overwrites the kind, otherwise a `data: ` line overwrites
the payload, and any other line is ignored. -/
def scanLines : List (List Char) → List Char × List Char → List Char × List Char
  | [], acc => acc
  | l :: ls, acc =>
    if startsWith evTag l then scanLines ls (l.drop 7, acc.2)
    else if startsWith dataTag l then scanLines ls (acc.1, l.drop 6)
    else scanLines ls acc

/-- The event kind extracted from a complete frame (defaults to `""`). -/
def frameKind (f : List Char) : List Char :=
  (scanLines (splitNL f) ([], [])).1

/-- The data payload text extracted from a complete frame. -/
def frameData (f : List Char) : List Char :=
  (scanLines (splitNL f) ([], [])).2

/-- The event kind as a `String`. -/
def frameKindStr (f : List Char) : String := String.mk (frameKind f)

/-- Model of JavaScript `String.trim` (used by `if (!event.trim())`). -/
def jsTrim (l : List Char) : List Char :=
  ((l.dropWhile isWs).reverse.dropWhile isWs).reverse

/- ------------------------------------------------------------------ -/
/- Event dispatcher                                                   -/
/- ------------------------------------------------------------------ -/

/-- A handler invocation performed by the dispatcher: the callback that
fired and the value it received. -/
inductive Invocation where
  | step (payload : Json)
  | done (payload : Json)
  | error (message : Json)

/-- Whether an invocation is of a terminal handler. -/
def isTerminal : Invocation → Bool
  | .step _ => false
  | _ => true

/-- The payload of a progress invocation, if any. -/
def stepPayload : Invocation → Option Json
  | .step p => some p
  | _ => none

/-- Which callback invocations throw an exception (the callbacks are
caller-supplied code, so the dispatcher must tolerate any behavior). -/
structure Oracle where
  stepThrows : Json → Bool
  doneThrows : Json → Bool
  errThrows : Json → Bool

/-- The oracle for callbacks that never throw. -/
def noThrow : Oracle := ⟨fun _ => false, fun _ => false, fun _ => false⟩

/-- One iteration of the frame loop of `uploadReportStreaming`, before
the surrounding `catch`: the invocation list records the handler that was
entered (if any) and the boolean records whether an exception escaped the
`try` block (a `JSON.parse` failure, the property access `parsed.error`
on `null`, or the callback itself throwing). -/
def frameIterRaw (o : Oracle) (f : List Char) : List Invocation × Bool :=
  if jsTrim f = [] then ([], false)
  else if frameData f = [] then ([], false)
  else
    match jsonParse (String.mk (frameData f)) with
    | none => ([], true)
    | some parsed =>
      match frameKindStr f with
      | "step" => ([.step parsed], o.stepThrows parsed)
      | "done" => ([.done parsed], o.doneThrows parsed)
      | "error" =>
        match jsGet parsed "error" with
        | none => ([], true)
        | some fld =>
          let m := jsOr fld (Json.str "Unknown error")
          ([.error m], o.errThrows m)
      | _ => ([], false)

/-- The observable handler invocations of one frame: the `catch` of the
source swallows any exception, so only the recorded invocations remain. -/
def frameInvs (o : Oracle) (f : List Char) : List Invocation :=
  (frameIterRaw o f).1

/-- Dispatch a list of complete frames in order (the inner `for` loop). -/
def dispatchFrames (o : Oracle) : List (List Char) → List Invocation
  | [] => []
  | f :: fs => frameInvs o f ++ dispatchFrames o fs

/-- The full streaming read loop: per chunk, append to the accumulator,
split off the complete frames, dispatch them, and continue with the
retained last piece as the new accumulator. -/
def streamLoop (o : Oracle) (buffer : List Char) : List (List Char) → List Invocation
  | [] => []
  | chunk :: cs =>
    let step := ingest buffer chunk
    dispatchFrames o step.1 ++ streamLoop o step.2 cs

/- ------------------------------------------------------------------ -/
/- Session state machine (UploadPage in Navbar.tsx)                   -/
/- ------------------------------------------------------------------ -/

/-- The lifecycle states of `UploadPage`. -/
inductive UploadState where
  | idle
  | uploading
  | agentRunning
  | done
  | error
deriving DecidableEq

/-- The `useState` cells of `UploadPage` that make up one upload
session: lifecycle state, selected file, progress log, completion
summary, and last error message. -/
structure Session where
  state : UploadState
  file : Option String
  steps : List Json
  doneResult : Option Json
  errorMessage : Json

/-- The state of `UploadPage` at first construction. -/
def initialSession : Session :=
  { state := .idle
    file := none
    steps := []
    doneResult := none
    errorMessage := .str "" }

/-- The `onStep` callback: append the payload to the progress log. -/
def onStepS (s : Session) (p : Json) : Session :=
  { s with steps := s.steps ++ [p] }

/-- The `onDone` callback: record the summary and enter `done`. -/
def onDoneS (s : Session) (p : Json) : Session :=
  { s with
    doneResult := some p
    state := .done }

/-- The `onError` callback: record the message and enter `error`. -/
def onErrorS (s : Session) (m : Json) : Session :=
  { s with
    errorMessage := m
    state := .error }

/-- Apply one dispatcher invocation to the session. -/
def applyInvocation (s : Session) : Invocation → Session
  | .step p => onStepS s p
  | .done p => onDoneS s p
  | .error m => onErrorS s m

/-- The start of `handleUpload`: record the file, enter `uploading`, and
clear the progress log, the completion summary, and the last error. -/
def beginAttempt (s : Session) (f : String) : Session :=
  { s with
    file := some f
    state := .uploading
    steps := []
    doneResult := none
    errorMessage := .str "" }

/-- The delayed transition to `agent-running` in `handleUpload`. -/
def startRunning (s : Session) : Session :=
  { s with state := .agentRunning }

/-- The `catch` of `handleUpload`: record the thrown message, enter
`error`, and touch nothing else. -/
def failAttempt (s : Session) (m : Json) : Session :=
  { s with
    state := .error
    errorMessage := m }

/-- The `reset` handler of `UploadPage`. -/
def resetSession (s : Session) : Session :=
  { s with
    state := .idle
    file := none
    steps := []
    doneResult := none
    errorMessage := .str "" }

/- ------------------------------------------------------------------ -/
/- Transport outcomes                                                 -/
/- ------------------------------------------------------------------ -/

/-- The possible outcomes of the `fetch` in `uploadReportStreaming`:
a non-success HTTP status (with the parse result of the response body,
`none` when `res.json()` rejects), a success response whose body is not
readable as a stream, or a readable stream of chunks. -/
inductive Transport where
  | httpError (body : Option Json)
  | noReader
  | stream (chunks : List (List Char))

/-- Whether the transport failed before any frame could be dispatched. -/
def isTransportFailure : Transport → Bool
  | .stream _ => false
  | _ => true

/-- The message of the error thrown for a non-success status:
`err.detail || "Upload failed"` where `err` is the parsed body or the
fallback object installed by the `.catch`.  A `null` body makes the
property access itself throw a `TypeError` (modelled by its platform
message). -/
def httpMessage : Option Json → Json
  | none => .str "Upload failed"
  | some j =>
    match jsGet j "detail" with
    | none => .str "Cannot read properties of null (reading 'detail')"
    | some fld => jsOr fld (.str "Upload failed")

/-- Model of `uploadReportStreaming`: transport failures throw (the
`Except.error` carries the thrown message), otherwise the chunk loop
runs and the performed handler invocations are returned. -/
def uploadStreaming (o : Oracle) : Transport → Except Json (List Invocation)
  | .httpError body => .error (httpMessage body)
  | .noReader => .error (.str "Streaming not supported")
  | .stream chunks => .ok (streamLoop o [] chunks)

/-- Model of one full `handleUpload` attempt: clear the session, enter
`uploading` then `agent-running`, run the stream, and either apply every
invocation or catch the thrown error. -/
def runAttempt (o : Oracle) (s : Session) (f : String) (t : Transport) : Session :=
  let s1 := startRunning (beginAttempt s f)
  match uploadStreaming o t with
  | .error m => failAttempt s1 m
  | .ok invs => invs.foldl applyInvocation s1

/- ------------------------------------------------------------------ -/
/- Frame buffer lemmas                                                -/
/- ------------------------------------------------------------------ -/

theorem consHead_ne_nil (c : Char) (l : List (List Char)) : consHead c l ≠ [] := by
  cases l <;> simp [consHead]

theorem splitNN_ne_nil (l : List Char) : splitNN l ≠ [] := by
  cases l with
  | nil => simp [splitNN]
  | cons c t =>
    cases t with
    | nil => simp [splitNN]
    | cons d t2 =>
      rw [splitNN]
      split
      · simp
      · exact consHead_ne_nil _ _

theorem lastP_cons (x : List Char) (l : List (List Char)) (h : l ≠ []) :
    lastP (x :: l) = lastP l := by
  cases l with
  | nil => exact absurd rfl h
  | cons y ys => rfl

theorem dropLast_cons_ne_nil (x : List Char) (l : List (List Char)) (h : l ≠ []) :
    (x :: l).dropLast = x :: l.dropLast := by
  cases l with
  | nil => exact absurd rfl h
  | cons y ys => rfl

theorem dropLast_append_ne_nil (xs ys : List (List Char)) (h : ys ≠ []) :
    (xs ++ ys).dropLast = xs ++ ys.dropLast := by
  induction xs with
  | nil => rfl
  | cons x xs ih =>
    rw [List.cons_append, dropLast_cons_ne_nil _ _ (by simp [h]), ih, List.cons_append]

theorem splitNN_singleton_head (c : Char) (t p : List Char)
    (h : splitNN (c :: t) = [p]) : ∃ q, p = c :: q := by
  cases t with
  | nil =>
    simp [splitNN] at h
    exact ⟨[], h.symm⟩
  | cons d t2 =>
    rw [splitNN] at h
    split at h
    · simp at h
      exact absurd h.2 (splitNN_ne_nil t2)
    · cases hS : splitNN (d :: t2) with
      | nil => exact absurd hS (splitNN_ne_nil _)
      | cons q qs =>
        rw [hS] at h
        simp [consHead] at h
        exact ⟨q, h.1.symm⟩

theorem splitNN_append (a b : List Char) :
    splitNN (a ++ b) = (splitNN a).dropLast ++ splitNN (lastP (splitNN a) ++ b) := by
  suffices H : ∀ n (a b : List Char), a.length ≤ n →
      splitNN (a ++ b) = (splitNN a).dropLast ++ splitNN (lastP (splitNN a) ++ b) from
    H a.length a b le_rfl
  intro n
  induction n with
  | zero =>
    intro a b ha
    have : a = [] := List.eq_nil_of_length_eq_zero (Nat.le_zero.mp ha)
    subst this
    simp [splitNN, lastP]
  | succ n ih =>
    intro a b ha
    cases a with
    | nil => simp [splitNN, lastP]
    | cons c1 a2 =>
      cases a2 with
      | nil => simp [splitNN, lastP]
      | cons c2 rest =>
        have hr2 : rest.length ≤ n := by simp at ha; omega
        have hr1 : (c2 :: rest).length ≤ n := by simp at ha ⊢; omega
        by_cases h : c1 = '\n' ∧ c2 = '\n'
        · have e1 : splitNN (c1 :: c2 :: rest) = [] :: splitNN rest := by
            rw [splitNN, if_pos h]
          have e2 : splitNN ((c1 :: c2 :: rest) ++ b) = [] :: splitNN (rest ++ b) := by
            show splitNN (c1 :: c2 :: (rest ++ b)) = _
            rw [splitNN, if_pos h]
          have hne := splitNN_ne_nil rest
          rw [e2, e1, ih rest b hr2, dropLast_cons_ne_nil _ _ hne, lastP_cons _ _ hne,
            List.cons_append]
        · have e1 : splitNN (c1 :: c2 :: rest) = consHead c1 (splitNN (c2 :: rest)) := by
            rw [splitNN, if_neg h]
          have e2 : splitNN ((c1 :: c2 :: rest) ++ b)
              = consHead c1 (splitNN ((c2 :: rest) ++ b)) := by
            show splitNN (c1 :: c2 :: (rest ++ b)) = _
            rw [splitNN, if_neg h]
            rfl
          rw [e2, ih (c2 :: rest) b hr1, e1]
          cases hS : splitNN (c2 :: rest) with
          | nil => exact absurd hS (splitNN_ne_nil _)
          | cons q qs =>
            cases qs with
            | nil =>
              obtain ⟨q2, hq⟩ := splitNN_singleton_head c2 rest q hS
              subst hq
              have e3 : splitNN (c1 :: c2 :: (q2 ++ b))
                  = consHead c1 (splitNN (c2 :: (q2 ++ b))) := by
                rw [splitNN, if_neg h]
              show consHead c1 ([] ++ splitNN ((c2 :: q2) ++ b))
                  = [] ++ splitNN ((c1 :: c2 :: q2) ++ b)
              rw [List.nil_append, List.nil_append, List.cons_append, List.cons_append,
                List.cons_append, e3]
            | cons q2 qs2 =>
              simp [consHead, lastP, List.dropLast]

theorem lastP_splitNN_append (a b : List Char) :
    lastP (splitNN (a ++ b)) = lastP (splitNN (lastP (splitNN a) ++ b)) := by
  rw [splitNN_append]
  induction (splitNN a).dropLast with
  | nil => rfl
  | cons x xs ih => rw [List.cons_append, lastP_cons _ _ (by simp [splitNN_ne_nil]), ih]

/-- A character list with no two consecutive newlines, i.e. no frame
separator: the shape of every retained accumulator. -/
def noSep : List Char → Bool
  | [] => true
  | [_] => true
  | c1 :: c2 :: rest => !(c1 = '\n' && c2 = '\n') && noSep (c2 :: rest)

theorem splitNN_of_noSep (l : List Char) (h : noSep l = true) : splitNN l = [l] := by
  induction l with
  | nil => rfl
  | cons c t ih =>
    cases t with
    | nil => rfl
    | cons d t2 =>
      simp [noSep] at h
      rw [splitNN, if_neg (not_and_or.mpr h.1), ih (by simpa using h.2)]
      rfl

theorem noSep_lastP_splitNN (l : List Char) : noSep (lastP (splitNN l)) = true := by
  suffices H : ∀ n (l : List Char), l.length ≤ n → noSep (lastP (splitNN l)) = true from
    H l.length l le_rfl
  intro n
  induction n with
  | zero =>
    intro l hl
    have : l = [] := List.eq_nil_of_length_eq_zero (Nat.le_zero.mp hl)
    subst this
    rfl
  | succ n ih =>
    intro l hl
    cases l with
    | nil => rfl
    | cons c1 l2 =>
      cases l2 with
      | nil => rfl
      | cons c2 rest =>
        have hr2 : rest.length ≤ n := by simp at hl; omega
        have hr1 : (c2 :: rest).length ≤ n := by simp at hl ⊢; omega
        by_cases h : c1 = '\n' ∧ c2 = '\n'
        · rw [splitNN, if_pos h, lastP_cons _ _ (splitNN_ne_nil rest)]
          exact ih rest hr2
        · rw [splitNN, if_neg h]
          cases hS : splitNN (c2 :: rest) with
          | nil => exact absurd hS (splitNN_ne_nil _)
          | cons q qs =>
            cases qs with
            | nil =>
              obtain ⟨q2, hq⟩ := splitNN_singleton_head c2 rest q hS
              subst hq
              have hq2 : noSep (c2 :: q2) = true := by
                have := ih (c2 :: rest) hr1
                rwa [hS] at this
              show noSep (c1 :: c2 :: q2) = true
              simp only [noSep, Bool.and_eq_true, Bool.not_eq_true']
              refine ⟨?_, hq2⟩
              rcases not_and_or.mp h with hc | hc <;> simp [hc]
            | cons q2 qs2 =>
              have := ih (c2 :: rest) hr1
              rwa [hS] at this

theorem runChunks_emits (cs : List (List Char)) (buf : List Char)
    (h : noSep buf = true) :
    runChunks buf cs = (splitNN (buf ++ cs.flatten)).dropLast := by
  induction cs generalizing buf with
  | nil =>
    rw [List.flatten_nil, List.append_nil, splitNN_of_noSep buf h]
    rfl
  | cons c cs ih =>
    show (splitNN (buf ++ c)).dropLast ++ runChunks (lastP (splitNN (buf ++ c))) cs = _
    rw [ih _ (noSep_lastP_splitNN _), List.flatten_cons, ← List.append_assoc,
      splitNN_append (buf ++ c) cs.flatten,
      dropLast_append_ne_nil _ _ (splitNN_ne_nil _)]

/-- C2: feeding any chunk sequence through the frame buffer emits exactly
the pieces of the concatenated stream separated by two consecutive
newlines, in order, without the trailing piece; in particular the emitted
frames depend only on the concatenation, not on where the chunk
boundaries fall, and the residual accumulator at end-of-stream is
discarded. -/
theorem c2_chunk_boundary_invariance (chunks chunks2 : List (List Char))
    (h : chunks.flatten = chunks2.flatten) :
    runChunks [] chunks = (splitNN chunks.flatten).dropLast ∧
    runChunks [] chunks = runChunks [] chunks2 := by
  have h1 := runChunks_emits chunks [] rfl
  have h2 := runChunks_emits chunks2 [] rfl
  rw [List.nil_append] at h1 h2
  exact ⟨h1, by rw [h1, h2, h]⟩

/-- Witness for C2: a frame split across a chunk boundary (and a chunk
boundary inside the separator itself) yields the same frames as the
unsplit stream. -/
theorem c2_chunk_boundary_invariance_witness :
    runChunks [] ["a\n".toList, "\nb\n\nc".toList]
      = (splitNN ("a\n".toList ++ "\nb\n\nc".toList)).dropLast ∧
    runChunks [] ["a\n".toList, "\nb\n\nc".toList]
      = runChunks [] ["a\n\nb\n\nc".toList] :=
  c2_chunk_boundary_invariance ["a\n".toList, "\nb\n\nc".toList]
    ["a\n\nb\n\nc".toList] rfl

/- ------------------------------------------------------------------ -/
/- Dispatcher lemmas                                                  -/
/- ------------------------------------------------------------------ -/

theorem frameIterRaw_fst_oracle (o o2 : Oracle) (f : List Char) :
    (frameIterRaw o f).1 = (frameIterRaw o2 f).1 := by
  unfold frameIterRaw
  repeat' split
  all_goals rfl

theorem dispatchFrames_append (o : Oracle) (fs1 fs2 : List (List Char)) :
    dispatchFrames o (fs1 ++ fs2) = dispatchFrames o fs1 ++ dispatchFrames o fs2 := by
  induction fs1 with
  | nil => rfl
  | cons f fs ih => simp [dispatchFrames, ih]

theorem dispatchFrames_oracle (o o2 : Oracle) (fs : List (List Char)) :
    dispatchFrames o fs = dispatchFrames o2 fs := by
  induction fs with
  | nil => rfl
  | cons f fs ih =>
    show frameInvs o f ++ _ = frameInvs o2 f ++ _
    rw [ih, frameInvs, frameInvs, frameIterRaw_fst_oracle o o2 f]

theorem streamLoop_eq_dispatch (o : Oracle) (cs : List (List Char)) (buf : List Char) :
    streamLoop o buf cs = dispatchFrames o (runChunks buf cs) := by
  induction cs generalizing buf with
  | nil => rfl
  | cons c cs ih => simp [streamLoop, runChunks, dispatchFrames_append, ih]

/- ------------------------------------------------------------------ -/
/- Line scan characterization (frame parser)                          -/
/- ------------------------------------------------------------------ -/

/-- The suffix of a line after a leading label, when the line carries
that label. -/
def extractTag (tag l : List Char) : Option (List Char) :=
  if startsWith tag l then some (l.drop tag.length) else none

/-- The last element of a list, if any. -/
def lastOpt {α : Type} : List α → Option α
  | [] => none
  | [x] => some x
  | _ :: xs => lastOpt xs

/-- The suffix of the last line of `lines` carrying the label `tag`. -/
def lastTagged (tag : List Char) (lines : List (List Char)) : Option (List Char) :=
  lastOpt (lines.filterMap (extractTag tag))

theorem lastOpt_cons_some {α : Type} (y : α) (ys : List α) :
    ∃ v, lastOpt (y :: ys) = some v := by
  induction ys generalizing y with
  | nil => exact ⟨y, rfl⟩
  | cons z zs ih => exact ih z

theorem lastOpt_cons_getD {α : Type} (x d : α) (xs : List α) :
    (lastOpt (x :: xs)).getD d = (lastOpt xs).getD x := by
  cases xs with
  | nil => rfl
  | cons y ys =>
    obtain ⟨v, hv⟩ := lastOpt_cons_some y ys
    show (lastOpt (y :: ys)).getD d = (lastOpt (y :: ys)).getD x
    rw [hv]
    rfl

theorem startsWith_cons_true {t : Char} {ts : List Char} {c : Char} {cs : List Char}
    (h : startsWith (t :: ts) (c :: cs) = true) : t = c ∧ startsWith ts cs = true := by
  simpa [startsWith, Bool.and_eq_true] using h

theorem evTag_excludes_dataTag (l : List Char) (h : startsWith evTag l = true) :
    startsWith dataTag l = false := by
  cases l with
  | nil => exact absurd h (by decide)
  | cons c cs =>
    have he : startsWith evTag (c :: cs) = startsWith ('e' :: "vent: ".toList) (c :: cs) :=
      rfl
    rw [he] at h
    obtain ⟨hc, -⟩ := startsWith_cons_true h
    have hd : startsWith dataTag (c :: cs) = startsWith ('d' :: "ata: ".toList) (c :: cs) :=
      rfl
    rw [hd]
    have hne : ('d' : Char) ≠ c := by rw [← hc]; decide
    simp [startsWith, hne]

theorem scanLines_characterize (lines : List (List Char)) :
    ∀ et ed, scanLines lines (et, ed)
      = ((lastTagged evTag lines).getD et, (lastTagged dataTag lines).getD ed) := by
  induction lines with
  | nil => intro et ed; rfl
  | cons l ls ih =>
    intro et ed
    unfold lastTagged
    by_cases hev : startsWith evTag l = true
    · have e1 : scanLines (l :: ls) (et, ed) = scanLines ls (l.drop 7, ed) := by
        show (if startsWith evTag l then scanLines ls (l.drop 7, ed)
          else if startsWith dataTag l then scanLines ls (et, l.drop 6)
          else scanLines ls (et, ed)) = _
        rw [hev]
        rfl
      have eev : extractTag evTag l = some (l.drop 7) := by
        unfold extractTag
        rw [hev]
        rfl
      have eda : extractTag dataTag l = none := by
        unfold extractTag
        rw [evTag_excludes_dataTag l hev]
        rfl
      rw [e1, ih, List.filterMap_cons_some eev, List.filterMap_cons_none eda,
        lastOpt_cons_getD]
      rfl
    · by_cases hda : startsWith dataTag l = true
      · have e1 : scanLines (l :: ls) (et, ed) = scanLines ls (et, l.drop 6) := by
          show (if startsWith evTag l then scanLines ls (l.drop 7, ed)
            else if startsWith dataTag l then scanLines ls (et, l.drop 6)
            else scanLines ls (et, ed)) = _
          rw [Bool.eq_false_iff.mpr hev, hda]
          rfl
        have eev : extractTag evTag l = none := by
          unfold extractTag
          rw [Bool.eq_false_iff.mpr hev]
          rfl
        have eda : extractTag dataTag l = some (l.drop 6) := by
          unfold extractTag
          rw [hda]
          rfl
        rw [e1, ih, List.filterMap_cons_some eda, List.filterMap_cons_none eev,
          lastOpt_cons_getD]
        rfl
      · have e1 : scanLines (l :: ls) (et, ed) = scanLines ls (et, ed) := by
          show (if startsWith evTag l then scanLines ls (l.drop 7, ed)
            else if startsWith dataTag l then scanLines ls (et, l.drop 6)
            else scanLines ls (et, ed)) = _
          rw [Bool.eq_false_iff.mpr hev, Bool.eq_false_iff.mpr hda]
          rfl
        have eev : extractTag evTag l = none := by
          unfold extractTag
          rw [Bool.eq_false_iff.mpr hev]
          rfl
        have eda : extractTag dataTag l = none := by
          unfold extractTag
          rw [Bool.eq_false_iff.mpr hda]
          rfl
        rw [e1, ih, List.filterMap_cons_none eev, List.filterMap_cons_none eda]
        rfl

/- ------------------------------------------------------------------ -/
/- Helper lemmas on JavaScript values                                 -/
/- ------------------------------------------------------------------ -/

theorem truthy_ne_emptyStr (v : Json) (h : v.truthy = true) : v ≠ Json.str "" := by
  intro he
  rw [he] at h
  exact absurd h (by decide)

theorem jsOr_ne_emptyStr (fld : Option Json) (d : Json) (hd : d ≠ Json.str "") :
    jsOr fld d ≠ Json.str "" := by
  cases fld with
  | none => exact hd
  | some v =>
    show (if v.truthy then v else d) ≠ Json.str ""
    by_cases hv : v.truthy
    · rw [if_pos hv]
      exact truthy_ne_emptyStr v hv
    · rw [if_neg hv]
      exact hd

theorem jsGet_of_ne_null (p : Json) (h : p ≠ Json.null) (k : String) :
    ∃ fld, jsGet p k = some fld := by
  cases p with
  | null => exact absurd rfl h
  | bool b => exact ⟨none, rfl⟩
  | num n => exact ⟨none, rfl⟩
  | str s => exact ⟨none, rfl⟩
  | arr l => exact ⟨none, rfl⟩
  | obj fs => exact ⟨lookupField fs k, rfl⟩

theorem httpMessage_ne_emptyStr (body : Option Json) : httpMessage body ≠ Json.str "" := by
  cases body with
  | none =>
    intro h
    injection h with h2
    exact absurd h2 (by decide)
  | some j =>
    unfold httpMessage
    rcases hg : jsGet j "detail" with _ | fld
    · simp only [hg]
      intro h
      injection h with h2
      exact absurd h2 (by decide)
    · simp only [hg]
      refine jsOr_ne_emptyStr fld _ ?_
      intro h
      injection h with h2
      exact absurd h2 (by decide)

/- ------------------------------------------------------------------ -/
/- Concrete frames used as test inputs                                -/
/- ------------------------------------------------------------------ -/

/-- A completion frame with an empty object payload. -/
def fDone : List Char := "event: done\ndata: \x7b\x7d".toList

/-- A progress frame with an empty object payload. -/
def fStep : List Char := "event: step\ndata: \x7b\x7d".toList

/-- A failure frame whose payload is the JSON value `null`. -/
def fErrNull : List Char := "event: error\ndata: null".toList

/-- A failure frame with an empty object payload. -/
def fErrEmpty : List Char := "event: error\ndata: \x7b\x7d".toList

/-- A progress frame whose data line is not valid JSON. -/
def fStepBadJson : List Char := "event: step\ndata: not-json".toList

/- ------------------------------------------------------------------ -/
/- C7                                                                 -/
/- ------------------------------------------------------------------ -/

/-- C7: the frame parser splits a frame into lines and selects the
suffix of the last line carrying the event label as the kind and the
suffix of the last line carrying the data label as the payload (last
occurrence wins); every line matching neither label is ignored, and the
kind defaults to the empty string when no event line is present. -/
theorem c7_last_label_wins (f : List Char) :
    frameKind f = (lastTagged evTag (splitNL f)).getD [] ∧
    frameData f = (lastTagged dataTag (splitNL f)).getD [] := by
  have h := scanLines_characterize (splitNL f) [] []
  exact ⟨congrArg Prod.fst h, congrArg Prod.snd h⟩

/- ------------------------------------------------------------------ -/
/- C1                                                                 -/
/- ------------------------------------------------------------------ -/

/-- The C1 claim as stated: once a terminal handler invocation has been
dispatched on a stream, no further handler fires. -/
def claimC1 : Prop :=
  ∀ (fs : List (List Char)) (pre post : List Invocation) (inv : Invocation),
    dispatchFrames noThrow fs = pre ++ inv :: post → isTerminal inv = true → post = []

/-- C1 counterexample: a stream consisting of a completion frame followed
by a progress frame dispatches the completion handler and then still
dispatches the progress handler — the dispatcher has no terminal flag. -/
theorem c1_counterexample : ¬ claimC1 := by
  intro hcl
  have h := hcl [fDone, fStep] [] [Invocation.step (Json.obj [])]
    (Invocation.done (Json.obj [])) rfl rfl
  exact List.cons_ne_nil _ _ h

/-- C1 amended: the dispatcher keeps no state across frames, so frames
arriving after a terminal frame are dispatched exactly as if the stream
had started there: dispatch distributes over concatenation and the
number of terminal invocations is additive — a stream fires one terminal
handler per terminal-producing frame (exactly one only when the stream
contains exactly one such frame), and progress frames after a terminal
frame still fire the progress handler. -/
theorem c1_amended_no_terminal_suppression (o : Oracle) (fs1 fs2 : List (List Char)) :
    dispatchFrames o (fs1 ++ fs2) = dispatchFrames o fs1 ++ dispatchFrames o fs2 ∧
    (dispatchFrames o (fs1 ++ fs2)).countP (fun i => isTerminal i)
      = (dispatchFrames o fs1).countP (fun i => isTerminal i)
        + (dispatchFrames o fs2).countP (fun i => isTerminal i) := by
  refine ⟨dispatchFrames_append o fs1 fs2, ?_⟩
  rw [dispatchFrames_append o fs1 fs2, List.countP_append]

/- ------------------------------------------------------------------ -/
/- C3                                                                 -/
/- ------------------------------------------------------------------ -/

/-- The C3 claim as stated: a progress or completion frame whose data
line parses as JSON but is missing the required fields of the matched
event shape (in particular an empty object) is dropped with no handler
invoked. -/
def claimC3 : Prop :=
  ∀ f : List Char,
    (frameKindStr f = "step" ∨ frameKindStr f = "done") →
    jsonParse (String.mk (frameData f)) = some (Json.obj []) →
    frameInvs noThrow f = []

/-- C3 counterexample: the frame `event: step` with data `\x7b\x7d`
parses to the empty object, which has none of the required fields of a
progress event, yet the progress handler is invoked with it — the
dispatcher applies an unchecked type cast and performs no field
validation. -/
theorem c3_counterexample : ¬ claimC3 := by
  intro hcl
  have h := hcl fStep (Or.inl rfl) rfl
  have e : frameInvs noThrow fStep = [Invocation.step (Json.obj [])] := rfl
  rw [e] at h
  exact List.cons_ne_nil _ _ h

/-- C3 amended: for every progress or completion frame whose data line
parses as JSON, the matching handler is always invoked with the parsed
payload exactly as produced by the parse — no field validation occurs,
so payloads missing required fields (such as the empty object) are
delivered rather than dropped. -/
theorem c3_amended_no_field_validation (f : List Char) (p : Json)
    (h1 : jsonParse (String.mk (frameData f)) = some p)
    (h2 : jsTrim f ≠ []) :
    (frameKindStr f = "step" → frameInvs noThrow f = [Invocation.step p]) ∧
    (frameKindStr f = "done" → frameInvs noThrow f = [Invocation.done p]) := by
  have hed : ¬ frameData f = [] := by
    intro he
    rw [he] at h1
    exact Option.noConfusion h1
  constructor <;> intro hk <;>
    simp [frameInvs, frameIterRaw, h2, hed, h1, hk]

/-- Witness for C3 amended: the empty-object progress frame invokes the
progress handler with the empty object. -/
theorem c3_amended_no_field_validation_witness :
    frameInvs noThrow fStep = [Invocation.step (Json.obj [])] :=
  (c3_amended_no_field_validation fStep (Json.obj []) rfl (by decide)).1 rfl


/- ------------------------------------------------------------------ -/
/- C4                                                                 -/
/- ------------------------------------------------------------------ -/

/-- C4: a frame with no data line or an empty data line, a frame whose
data line fails JSON deserialization, and a frame whose event kind is
not recognized all invoke no handler, leave every session unchanged, and
leave the dispatch of the surrounding frames exactly as if the frame
were absent — malformation is never fatal to the stream. -/
theorem c4_malformed_frame_dropped (o : Oracle) (f : List Char)
    (h : frameData f = [] ∨ jsonParse (String.mk (frameData f)) = none ∨
      (frameKindStr f ≠ "step" ∧ frameKindStr f ≠ "done" ∧ frameKindStr f ≠ "error")) :
    frameInvs o f = [] ∧
    (∀ fs1 fs2, dispatchFrames o (fs1 ++ f :: fs2) = dispatchFrames o (fs1 ++ fs2)) ∧
    (∀ s : Session, List.foldl applyInvocation s (frameInvs o f) = s) := by
  have hinv : frameInvs o f = [] := by
    by_cases ht : jsTrim f = []
    · simp [frameInvs, frameIterRaw, ht]
    · by_cases hed : frameData f = []
      · simp [frameInvs, frameIterRaw, ht, hed]
      · rcases h with h | h | h
        · exact absurd h hed
        · simp [frameInvs, frameIterRaw, ht, hed, h]
        · obtain ⟨h1, h2, h3⟩ := h
          rcases hj : jsonParse (String.mk (frameData f)) with _ | p
          · simp [frameInvs, frameIterRaw, ht, hed, hj]
          · simp [frameInvs, frameIterRaw, ht, hed, hj, h1, h2, h3]
  refine ⟨hinv, ?_, ?_⟩
  · intro fs1 fs2
    rw [dispatchFrames_append, dispatchFrames_append]
    show dispatchFrames o fs1 ++ (frameInvs o f ++ dispatchFrames o fs2) = _
    rw [hinv, List.nil_append]
  · intro s
    rw [hinv]
    rfl

/-- Witness for C4: the frame with data line `not-json` (which fails
JSON deserialization) invokes nothing, changes no session, and leaves
the surrounding dispatch intact. -/
theorem c4_malformed_frame_dropped_witness :
    frameInvs noThrow fStepBadJson = [] ∧
    (∀ fs1 fs2, dispatchFrames noThrow (fs1 ++ fStepBadJson :: fs2)
      = dispatchFrames noThrow (fs1 ++ fs2)) ∧
    (∀ s : Session, List.foldl applyInvocation s (frameInvs noThrow fStepBadJson) = s) :=
  c4_malformed_frame_dropped noThrow fStepBadJson (Or.inr (Or.inl rfl))

/- ------------------------------------------------------------------ -/
/- C5                                                                 -/
/- ------------------------------------------------------------------ -/

/-- The C5 claim as stated: for every failure frame whose data line
parses as JSON, the failure handler always fires. -/
def claimC5 : Prop :=
  ∀ (f : List Char) (p : Json),
    frameKindStr f = "error" →
    jsonParse (String.mk (frameData f)) = some p →
    ∃ m, frameInvs noThrow f = [Invocation.error m]

/-- C5 counterexample: the failure frame whose data line is the JSON
document `null` parses successfully, but the property access
`parsed.error` then throws on `null`, the exception is swallowed, and
the failure handler never fires — the frame is dropped. -/
theorem c5_counterexample : ¬ claimC5 := by
  intro hcl
  obtain ⟨m, hm⟩ := hcl fErrNull Json.null rfl rfl
  have e : frameInvs noThrow fErrNull = [] := rfl
  rw [e] at hm
  exact List.cons_ne_nil _ _ hm.symm

/-- C5 amended: for every failure frame whose data line parses as JSON
to a value other than `null`, the failure handler always fires; the
message it receives is never the empty string, and when the payload's
error field is absent, undefined, or the empty string the handler
receives the fallback message `Unknown error`; applying the invocation
puts any session in the error state with that message.  (A `null`
payload is dropped like a malformed frame, because the property access
on `null` throws inside the guarded block.) -/
theorem c5_amended_fallback_message (f : List Char) (p : Json)
    (hk : frameKindStr f = "error")
    (hp : jsonParse (String.mk (frameData f)) = some p)
    (hnn : p ≠ Json.null)
    (ht : jsTrim f ≠ []) :
    ∃ m, frameInvs noThrow f = [Invocation.error m] ∧ m ≠ Json.str "" ∧
      ((jsGet p "error" = some none ∨ jsGet p "error" = some (some (Json.str ""))) →
        m = Json.str "Unknown error") ∧
      ∀ s : Session,
        (applyInvocation s (Invocation.error m)).state = UploadState.error ∧
        (applyInvocation s (Invocation.error m)).errorMessage = m ∧
        (applyInvocation s (Invocation.error m)).steps = s.steps := by
  have hed : ¬ frameData f = [] := by
    intro he
    rw [he] at hp
    exact Option.noConfusion hp
  obtain ⟨fld, hfld⟩ := jsGet_of_ne_null p hnn "error"
  refine ⟨jsOr fld (Json.str "Unknown error"), ?_, ?_, ?_, ?_⟩
  · simp [frameInvs, frameIterRaw, ht, hed, hp, hk, hfld]
  · refine jsOr_ne_emptyStr fld _ ?_
    intro h
    injection h with h2
    exact absurd h2 (by decide)
  · intro habs
    rcases habs with h | h <;> rw [hfld] at h <;> injection h with h2
    · rw [h2]
      rfl
    · rw [h2]
      rfl
  · intro s
    exact ⟨rfl, rfl, rfl⟩

/-- Witness for C5 amended: the failure frame with the empty-object
payload fires the failure handler with the fallback message. -/
theorem c5_amended_fallback_message_witness :
    ∃ m, frameInvs noThrow fErrEmpty = [Invocation.error m] ∧ m ≠ Json.str "" ∧
      ((jsGet (Json.obj []) "error" = some none ∨
        jsGet (Json.obj []) "error" = some (some (Json.str ""))) →
        m = Json.str "Unknown error") ∧
      ∀ s : Session,
        (applyInvocation s (Invocation.error m)).state = UploadState.error ∧
        (applyInvocation s (Invocation.error m)).errorMessage = m ∧
        (applyInvocation s (Invocation.error m)).steps = s.steps :=
  c5_amended_fallback_message fErrEmpty (Json.obj []) rfl rfl
    (fun h => Json.noConfusion h) (by decide)

/- ------------------------------------------------------------------ -/
/- C6                                                                 -/
/- ------------------------------------------------------------------ -/

/-- C6: when the transport fails before any terminal event — a
non-success HTTP status or an unreadable response body — the attempt
ends in the error state with a message that is never the empty string
(the response's detail field when it is a truthy value, otherwise a
generic fallback), and the progress log has length zero. -/
theorem c6_transport_failure (o : Oracle) (s : Session) (f : String) (t : Transport)
    (h : isTransportFailure t = true) :
    (runAttempt o s f t).state = UploadState.error ∧
    (runAttempt o s f t).errorMessage ≠ Json.str "" ∧
    (runAttempt o s f t).steps = [] ∧
    (t = Transport.noReader →
      (runAttempt o s f t).errorMessage = Json.str "Streaming not supported") ∧
    (t = Transport.httpError none →
      (runAttempt o s f t).errorMessage = Json.str "Upload failed") := by
  cases t with
  | stream cs => exact absurd h (by simp [isTransportFailure])
  | noReader =>
    refine ⟨rfl, ?_, rfl, fun _ => rfl, fun hh => Transport.noConfusion hh⟩
    intro he
    injection he with h2
    exact absurd h2 (by decide)
  | httpError body =>
    refine ⟨rfl, httpMessage_ne_emptyStr body, rfl, fun hh => Transport.noConfusion hh, ?_⟩
    intro hh
    injection hh with h2
    rw [h2]
    rfl

/-- Witness for C6: a non-success status whose body is unparseable ends
the attempt in the error state with the generic fallback message and an
empty log. -/
theorem c6_transport_failure_witness :
    (runAttempt noThrow initialSession "report.pdf"
      (Transport.httpError none)).state = UploadState.error ∧
    (runAttempt noThrow initialSession "report.pdf"
      (Transport.httpError none)).errorMessage ≠ Json.str "" ∧
    (runAttempt noThrow initialSession "report.pdf"
      (Transport.httpError none)).steps = [] ∧
    (Transport.httpError none = Transport.noReader →
      (runAttempt noThrow initialSession "report.pdf"
        (Transport.httpError none)).errorMessage = Json.str "Streaming not supported") ∧
    (Transport.httpError none = Transport.httpError none →
      (runAttempt noThrow initialSession "report.pdf"
        (Transport.httpError none)).errorMessage = Json.str "Upload failed") :=
  c6_transport_failure noThrow initialSession "report.pdf" (Transport.httpError none) rfl

/- ------------------------------------------------------------------ -/
/- C8                                                                 -/
/- ------------------------------------------------------------------ -/

/-- C8: from any terminal session, the explicit reset produces a state
identical to first construction — idle, no file, empty log, no summary,
no error message — and starting a new attempt enters `uploading` with
the log, the summary, and the last error cleared before any event is
processed. -/
theorem c8_reset_identical_to_initial (s : Session) (f : String)
    (h : s.state = UploadState.done ∨ s.state = UploadState.error) :
    resetSession s = initialSession ∧
    (beginAttempt s f).state = UploadState.uploading ∧
    (beginAttempt s f).file = some f ∧
    (beginAttempt s f).steps = [] ∧
    (beginAttempt s f).doneResult = none ∧
    (beginAttempt s f).errorMessage = Json.str "" := by
  refine ⟨?_, rfl, rfl, rfl, rfl, rfl⟩
  cases s
  rfl

/-- Witness for C8: resetting a populated `done` session restores the
initial state, and a new attempt starts clean. -/
theorem c8_reset_identical_to_initial_witness :
    resetSession
      ⟨UploadState.done, some "old.pdf", [Json.obj []], some (Json.obj []),
        Json.str "old"⟩ = initialSession ∧
    (beginAttempt
      ⟨UploadState.done, some "old.pdf", [Json.obj []], some (Json.obj []),
        Json.str "old"⟩ "new.pdf").state = UploadState.uploading ∧
    (beginAttempt
      ⟨UploadState.done, some "old.pdf", [Json.obj []], some (Json.obj []),
        Json.str "old"⟩ "new.pdf").file = some "new.pdf" ∧
    (beginAttempt
      ⟨UploadState.done, some "old.pdf", [Json.obj []], some (Json.obj []),
        Json.str "old"⟩ "new.pdf").steps = [] ∧
    (beginAttempt
      ⟨UploadState.done, some "old.pdf", [Json.obj []], some (Json.obj []),
        Json.str "old"⟩ "new.pdf").doneResult = none ∧
    (beginAttempt
      ⟨UploadState.done, some "old.pdf", [Json.obj []], some (Json.obj []),
        Json.str "old"⟩ "new.pdf").errorMessage = Json.str "" :=
  c8_reset_identical_to_initial
    ⟨UploadState.done, some "old.pdf", [Json.obj []], some (Json.obj []),
      Json.str "old"⟩ "new.pdf" (Or.inl rfl)

/- ------------------------------------------------------------------ -/
/- C9                                                                 -/
/- ------------------------------------------------------------------ -/

/-- C9: every transition into the error state — the failure-event
handler as well as the transport-failure catch — mutates only the
lifecycle state and the error message: the progress log, the completion
summary, and the selected file are untouched; moreover, over any run of
dispatcher invocations the log only ever grows by the progress payloads
in order, so no handler ever clears it. -/
theorem c9_error_transition_preserves_log (s : Session) (m : Json)
    (invs : List Invocation) :
    (onErrorS s m).steps = s.steps ∧
    (onErrorS s m).doneResult = s.doneResult ∧
    (onErrorS s m).file = s.file ∧
    (onErrorS s m).state = UploadState.error ∧
    (onErrorS s m).errorMessage = m ∧
    (failAttempt s m).steps = s.steps ∧
    (failAttempt s m).doneResult = s.doneResult ∧
    (failAttempt s m).file = s.file ∧
    (List.foldl applyInvocation s invs).steps = s.steps ++ invs.filterMap stepPayload := by
  refine ⟨rfl, rfl, rfl, rfl, rfl, rfl, rfl, rfl, ?_⟩
  induction invs generalizing s with
  | nil => simp
  | cons i is ih =>
    cases i with
    | step p => simp [applyInvocation, onStepS, ih, stepPayload]
    | done p => simp [applyInvocation, onDoneS, ih, stepPayload]
    | error m2 => simp [applyInvocation, onErrorS, ih, stepPayload]

/- ------------------------------------------------------------------ -/
/- C10                                                                -/
/- ------------------------------------------------------------------ -/

/-- C10: an exception thrown by a callback is swallowed by the same
guard that swallows malformed frames: which handlers are entered on a
frame does not depend on which callbacks throw, the frame loop goes on
to dispatch the remaining frames unchanged, and the whole dispatch is a
total function — the exception never reaches the caller and never ends
the attempt. -/
theorem c10_callback_exception_swallowed (o : Oracle) (f : List Char)
    (fs : List (List Char)) :
    (frameIterRaw o f).1 = (frameIterRaw noThrow f).1 ∧
    dispatchFrames o (f :: fs) = (frameIterRaw o f).1 ++ dispatchFrames o fs ∧
    dispatchFrames o fs = dispatchFrames noThrow fs :=
  ⟨frameIterRaw_fst_oracle o noThrow f, rfl, dispatchFrames_oracle o noThrow fs⟩
